import Mathlib

/-!
Verification model of the `longcon` HTTP monitor (`monitor.go`).

The program is a liveness/latency probe: `main` parses an optional worker
count, staggers the start of N worker goroutines, and waits on a buffered
signal channel; each worker owns an HTTP client built by `createHTTPClient`
whose `DialContext` rewrites the dial address to a fixed host override, wraps
established connections in `connWrapper`, and probes `targetURL` once per tick
via `makeRequest`.

The embedding below translates each of these pieces into executable Lean
definitions.  Strings manipulated by the address logic are modelled as
`List Char`; wall-clock instants and durations are modelled in nanoseconds
(the unit of Go's `time.Duration`).
-/

/-! ### Hard-coded configuration constants (`const` block of monitor.go) -/

def targetURL : String := "https://aga-degradation.pacnw.xyz/test_50kb.bin"

def hostOverride : String := "alias-icn1.vercel.com"

/-- The override host as a character list, for the address-rewriting logic. -/
def hostOverrideChars : List Char := hostOverride.toList

/-- One millisecond in nanoseconds (`time.Millisecond`). -/
def millisecondNs : Nat := 1000000

/-- `requestInterval = 1 * time.Second`. -/
def requestIntervalNs : Nat := 1000000000

/-- `workerOffset = 147 * time.Millisecond`. -/
def workerOffsetNs : Nat := 147000000

/-- `requestTimeout = 10 * time.Second` — declared in the const block. -/
def requestTimeoutNs : Nat := 10000000000

/-! ### `net.SplitHostPort` / `net.JoinHostPort`

Faithful model of the Go standard library functions used by the
`DialContext` closure in `createHTTPClient`.  `SplitHostPort` locates the
last colon, handles the bracketed (IPv6) form, and rejects malformed
addresses with a typed error. -/

/-- The error cases of `net.SplitHostPort` (the `AddrError` reasons). -/
inductive AddrError where
  | missingPort
  | tooManyColons
  | missingBracket
  | unexpectedLBracket
  | unexpectedRBracket
  deriving DecidableEq

/-- Index of the last occurrence of `c` in `s` (Go `last(hostPort, ':')`). -/
def lastIdx : List Char → Char → Option Nat
  | [], _ => none
  | a :: as, c =>
    match lastIdx as c with
    | some i => some (i + 1)
    | none => if a = c then some 0 else none

/-- Index of the first occurrence of `c` in `s` (Go `bytealg.IndexByteString`). -/
def firstIdx : List Char → Char → Option Nat
  | [], _ => none
  | a :: as, c => if a = c then some 0 else (firstIdx as c).map (· + 1)

/-- Model of `net.SplitHostPort`: split `host:port` (or `[host]:port`) at the
last colon, with the same guard structure and error cases as the Go source. -/
def splitHostPort (s : List Char) : Except AddrError (List Char × List Char) :=
  match lastIdx s ':' with
  | none => .error .missingPort
  | some i =>
    if s.head? = some '[' then
      match firstIdx s ']' with
      | none => .error .missingBracket
      | some e =>
        if e + 1 = s.length then .error .missingPort
        else if e + 1 = i then
          if '[' ∈ s.drop 1 then .error .unexpectedLBracket
          else if ']' ∈ s.drop (e + 1) then .error .unexpectedRBracket
          else .ok ((s.drop 1).take (e - 1), s.drop (i + 1))
        else if s[e + 1]? = some ':' then .error .tooManyColons
        else .error .missingPort
    else
      if ':' ∈ s.take i then .error .tooManyColons
      else if '[' ∈ s then .error .unexpectedLBracket
      else if ']' ∈ s then .error .unexpectedRBracket
      else .ok (s.take i, s.drop (i + 1))

/-- Model of `net.JoinHostPort`. -/
def joinHostPort (host port : List Char) : List Char :=
  if ':' ∈ host then '[' :: host ++ ']' :: ':' :: port
  else host ++ ':' :: port

/-- The address computation of the `DialContext` closure in
`createHTTPClient`: when the override is non-empty, split the original dial
address, propagate a split error (returning no connection), and otherwise
dial `JoinHostPort(hostOverride, port)`. -/
def dialRewrite (override addr : List Char) : Except AddrError (List Char) :=
  if override = [] then .ok addr
  else
    match splitHostPort addr with
    | .error e => .error e
    | .ok (_, port) => .ok (joinHostPort override port)

/-! ### `connWrapper` (connection tracker)

`connWrapper` embeds a `net.Conn`; its `Close` prints one log line naming the
remote address and the worker's log marker (the Go field `prefix`, modelled
here as `pfx`), then delegates to the embedded connection's `Close` and
returns its error unchanged. -/

/-- Observable state of an underlying `net.Conn`: whether its close behavior
has run, and the error its `Close` reports. -/
structure NetConn where
  closed : Bool
  closeErr : Option String
  deriving DecidableEq

/-- `Close` of the raw connection: performs the close (marking the
connection closed) and yields its error value. -/
def NetConn.close (c : NetConn) : NetConn × Option String :=
  ({ c with closed := true }, c.closeErr)

/-- The wrapper built by the dial closure: embedded conn, resolved address,
worker log marker. -/
structure ConnWrapper where
  conn : NetConn
  addr : String
  pfx : String
  deriving DecidableEq

/-- Result of `connWrapper.Close`: the state of the underlying connection,
the log records emitted, and the returned error. -/
structure CloseResult where
  conn : NetConn
  logs : List String
  err : Option String
  deriving DecidableEq

/-- `func (c *connWrapper) Close() error`: print the close record, then
return `c.Conn.Close()`. -/
def ConnWrapper.Close (w : ConnWrapper) : CloseResult :=
  let r := w.conn.close
  { conn := r.1
    logs := ["\n" ++ w.pfx ++ " 🔌 CONNECTION CLOSED to " ++ w.addr]
    err := r.2 }

/-! ### `createHTTPClient` configuration

The `http.Transport` and `http.Client` fields set by `createHTTPClient`.
`http.Client.Timeout` is not assigned in the composite literal, so it keeps
Go's zero value, which means "no overall request timeout". -/

structure TransportConfig where
  dialTimeoutNs : Nat
  dialKeepAliveNs : Nat
  maxIdleConns : Nat
  maxIdleConnsPerHost : Nat
  maxConnsPerHost : Nat
  idleConnTimeoutNs : Nat
  disableKeepAlives : Bool
  deriving DecidableEq

structure HTTPClient where
  transport : TransportConfig
  timeoutNs : Nat
  deriving DecidableEq

/-- The configuration `createHTTPClient` returns (the dial closure itself is
modelled separately by `dialRewrite`).  The argument is the worker's log
marker, which the configuration does not depend on. -/
def createHTTPClient (_pfx : String) : HTTPClient :=
  { transport :=
      { dialTimeoutNs := 10000000000
        dialKeepAliveNs := 30000000000
        maxIdleConns := 1
        maxIdleConnsPerHost := 1
        maxConnsPerHost := 1
        idleConnTimeoutNs := 10000000000
        disableKeepAlives := false }
    timeoutNs := 0 }

/-! ### `makeRequest` (prober)

A probe's interaction with the network is summarised by a `GetResult`:
either `client.Get` fails after `durNs`, or it returns a response after
`headerDurNs` (headers received) whose body takes a further `drainDurNs`
to consume.  `makeRequest` mirrors the source line by line: `startTime` is
taken before the GET, `endTime` immediately after `client.Get` returns,
the `x-vercel-id` header is read, the body is drained counting bytes, and
the duration printed is `endTime.Sub(startTime).Round(time.Millisecond)`. -/

structure HTTPResponse where
  statusCode : Nat
  headers : List (String × String)
  body : List Nat
  deriving DecidableEq

inductive GetResult where
  | failure (msg : String) (durNs : Nat)
  | success (resp : HTTPResponse) (headerDurNs : Nat) (drainDurNs : Nat)
  deriving DecidableEq

/-- ASCII lower-casing of one character — the case folding under which Go
canonicalises MIME header keys. -/
def lowerChar (c : Char) : Char :=
  if 'A' ≤ c ∧ c ≤ 'Z' then Char.ofNat (c.toNat + 32) else c

/-- ASCII-case-insensitive MIME header key comparison. -/
def keyMatches (a b : String) : Bool :=
  a.toList.map lowerChar == b.toList.map lowerChar

/-- `http.Header.Get`: first value stored under the (case-insensitively
matched) key, `""` when no such header exists. -/
def headerGet (hs : List (String × String)) (key : String) : String :=
  match hs.find? (fun kv => keyMatches kv.1 key) with
  | some kv => kv.2
  | none => ""

/-- `time.Duration.Round(time.Millisecond)` for a non-negative duration:
nearest multiple of a millisecond, half rounding away from zero. -/
def roundNs (d : Nat) : Nat :=
  let r := d % millisecondNs
  if r + r < millisecondNs then d - r else d - r + millisecondNs

/-- The record printed by `makeRequest`: the error line, or the outcome
line with end timestamp, status, bytes read, rounded duration and header
value.  `drainedNs` is the wall-clock instant at which the body was fully
consumed (the `io.Copy` return point). -/
inductive ProbeOutcome where
  | errorLine (startNs endNs : Nat) (msg : String)
  | outcomeLine (startNs endNs drainedNs : Nat) (status : Nat)
      (bytesRead : Nat) (durationNs : Nat) (headerVal : String)
  deriving DecidableEq

/-- `func makeRequest(client *http.Client, prefix string)`, started at
wall-clock instant `nowNs`. -/
def makeRequest (nowNs : Nat) (g : GetResult) : ProbeOutcome :=
  match g with
  | .failure msg d => .errorLine nowNs (nowNs + d) msg
  | .success resp hd dd =>
    let startTime := nowNs
    let endTime := nowNs + hd
    let vercelID0 := headerGet resp.headers "x-vercel-id"
    let vercelID := if vercelID0 = "" then "not found" else vercelID0
    let bytesRead := resp.body.length
    let drained := endTime + dd
    .outcomeLine startTime endTime drained resp.statusCode bytesRead
      (roundNs (endTime - startTime)) vercelID

def ProbeOutcome.startNs : ProbeOutcome → Nat
  | .errorLine s _ _ => s
  | .outcomeLine s _ _ _ _ _ _ => s

def ProbeOutcome.endNs : ProbeOutcome → Nat
  | .errorLine _ e _ => e
  | .outcomeLine _ e _ _ _ _ _ => e

/-- Instant at which body consumption finished (equal to `endNs` for a
failed probe, which has no body to drain). -/
def ProbeOutcome.drainedNs : ProbeOutcome → Nat
  | .errorLine _ e _ => e
  | .outcomeLine _ _ d _ _ _ _ => d

def ProbeOutcome.isError : ProbeOutcome → Bool
  | .errorLine _ _ _ => true
  | .outcomeLine _ _ _ _ _ _ _ => false

def ProbeOutcome.bytesRead? : ProbeOutcome → Option Nat
  | .errorLine _ _ _ => none
  | .outcomeLine _ _ _ _ b _ _ => some b

def ProbeOutcome.durationNs? : ProbeOutcome → Option Nat
  | .errorLine _ _ _ => none
  | .outcomeLine _ _ _ _ _ d _ => some d

def ProbeOutcome.headerVal? : ProbeOutcome → Option String
  | .errorLine _ _ _ => none
  | .outcomeLine _ _ _ _ _ _ v => some v

/-! ### Shutdown channel and worker loop

`stopChan` is `make(chan os.Signal, 1)`; it is registered with
`signal.Notify` and is never closed anywhere in the program.  Delivery of a
signal is a send into the channel; `<-stopChan` in `main` and the
`case <-stopChan` arm of each worker's select are competing receives.  Go
channel semantics: each sent value is consumed by exactly one receive, and
a receive can only consume a previously sent, not yet consumed value.  A
history of channel operations is a list of events, valid when no receive
finds the channel empty. -/

inductive ChanEvent where
  | send
  | recv (receiver : Nat)
  deriving DecidableEq

def isRecvEv : ChanEvent → Bool
  | .send => false
  | .recv _ => true

def isSendEv : ChanEvent → Bool
  | .send => true
  | .recv _ => false

/-- Run a history against a channel holding `p` pending values; `none`
when some receive finds the channel empty (that receive would block, so
the history cannot occur). -/
def chanRun : Nat → List ChanEvent → Option Nat
  | p, [] => some p
  | p, .send :: tr => chanRun (p + 1) tr
  | 0, .recv _ :: _ => none
  | p + 1, .recv _ :: tr => chanRun p tr

/-- A realisable history of operations on the (initially empty) channel. -/
def validTrace (tr : List ChanEvent) : Bool := (chanRun 0 tr).isSome

def sendCount (tr : List ChanEvent) : Nat := tr.countP isSendEv

def recvCount (tr : List ChanEvent) : Nat := tr.countP isRecvEv

/-- The claim that the single delivered signal is broadcast: some
realisable history delivers one signal and both of two workers receive it. -/
def broadcastClaim : Prop :=
  ∃ tr : List ChanEvent, validTrace tr = true ∧ sendCount tr = 1 ∧
    ChanEvent.recv 1 ∈ tr ∧ ChanEvent.recv 2 ∈ tr

/-- What a worker's select loop observes, tick by tick: either the ticker
fires or the worker's receive on `stopChan` succeeds. -/
inductive SelectEvent where
  | tick
  | stopRecv
  deriving DecidableEq

/-- What the worker loop does in response: issue a probe, or print the
stopping message and return. -/
inductive WorkerAction where
  | probe
  | stopLog
  deriving DecidableEq

/-- The `for { select { ... } }` loop of `runWorker`: a tick triggers
`makeRequest` and the loop continues; a successful receive of the stop
signal logs the stopping message and returns — nothing after it runs. -/
def workerLoop : List SelectEvent → List WorkerAction
  | [] => []
  | .tick :: es => .probe :: workerLoop es
  | .stopRecv :: _ => [.stopLog]

/-- Full `runWorker` output: the initial probe issued before the loop,
then the loop's actions. -/
def runWorkerActions (es : List SelectEvent) : List WorkerAction :=
  .probe :: workerLoop es

/-! ### `main`: argument parsing and staggered worker launch -/

/-- Leading-digit accumulation for `strconv.Atoi`: `none` as soon as a
non-digit is met. -/
def digitsAux : Nat → List Char → Option Nat
  | acc, [] => some acc
  | acc, c :: rest =>
    if c.isDigit then digitsAux (acc * 10 + (c.toNat - 48)) rest else none

/-- Model of `strconv.Atoi`: optional sign followed by at least one digit;
anything else is a syntax error (`none`). -/
def atoi (s : List Char) : Option Int :=
  match s with
  | [] => none
  | c :: rest =>
    if c = '+' then
      if rest.isEmpty then none else (digitsAux 0 rest).map Int.ofNat
    else if c = '-' then
      if rest.isEmpty then none else (digitsAux 0 rest).map (fun n => -(n : Int))
    else (digitsAux 0 (c :: rest)).map Int.ofNat

/-- The argument-parsing block of `main`: given `os.Args[1]` (or `none`
when absent), return the worker count used and whether the
invalid-argument message was printed.  `numGoroutines` starts at 1 and is
only replaced when `Atoi` succeeds with a positive value. -/
def parseWorkerCount (arg? : Option (List Char)) : Nat × Bool :=
  match arg? with
  | none => (1, false)
  | some a =>
    match atoi a with
    | some n => if 0 < n then (n.toNat, false) else (1, true)
    | none => (1, true)

/-- The worker-launch loop of `main`, starting at wall-clock `clockNs`
with loop counter `i` and `k` iterations to go: each iteration first
sleeps `workerOffset`, then spawns `runWorker(i+1)`.  Returns the list of
`(workerID, startNs)` pairs in spawn order and the clock at loop exit
(when `main` begins waiting on `stopChan`). -/
def launchFrom (clockNs i : Nat) : Nat → List (Nat × Nat) × Nat
  | 0 => ([], clockNs)
  | k + 1 =>
    let c2 := clockNs + workerOffsetNs
    let rest := launchFrom c2 (i + 1) k
    ((i + 1, c2) :: rest.1, rest.2)

/-- The `(workerID, startNs)` pairs produced by `main` for `n` workers. -/
def workerLaunches (n : Nat) : List (Nat × Nat) := (launchFrom 0 0 n).1

/-- The instant at which `main` reaches `<-stopChan`. -/
def supervisorWaitNs (n : Nat) : Nat := (launchFrom 0 0 n).2

/-! ### Helper lemmas about the address model -/

theorem lastIdx_eq_none : ∀ (s : List Char) (c : Char), lastIdx s c = none ↔ c ∉ s
  | [], c => by simp [lastIdx]
  | a :: as, c => by
    rw [lastIdx]
    rcases h : lastIdx as c with _ | i
    · have has : c ∉ as := (lastIdx_eq_none as c).mp h
      by_cases hac : a = c
      · subst hac
        simp
      · simp only [if_neg hac, List.mem_cons]
        constructor
        · rintro - (hca | hca)
          · exact hac hca.symm
          · exact has hca
        · intro _
          trivial
    · have hmem : c ∈ as := by
        by_contra hn
        rw [(lastIdx_eq_none as c).mpr hn] at h
        cases h
      simp [hmem]

theorem lastIdx_drop : ∀ (s : List Char) (c : Char) (i : Nat),
    lastIdx s c = some i → c ∉ s.drop (i + 1)
  | [], c, i => by simp [lastIdx]
  | a :: as, c, i => by
    rw [lastIdx]
    rcases h : lastIdx as c with _ | j
    · by_cases hac : a = c
      · rw [if_pos hac]
        intro he
        injection he with he'
        subst he'
        simpa using (lastIdx_eq_none as c).mp h
      · rw [if_neg hac]
        intro he
        cases he
    · intro he
      injection he with he'
      subst he'
      simpa [List.drop_succ_cons] using lastIdx_drop as c j h

theorem lastIdx_append_cons (c : Char) {p : List Char} (hp : c ∉ p) :
    ∀ (h : List Char), lastIdx (h ++ c :: p) c = some h.length
  | [] => by
    rw [List.nil_append, lastIdx, (lastIdx_eq_none p c).mpr hp, if_pos rfl]
    rfl
  | a :: h => by
    rw [List.cons_append, lastIdx, lastIdx_append_cons c hp h]
    rfl

/-- In every successful split, the returned port component contains no
colon and no bracket (it lies beyond the last colon, and the bracket
guards rejected any bracket in that region). -/
theorem splitHostPort_port_clean {s host port : List Char}
    (h : splitHostPort s = .ok (host, port)) :
    ':' ∉ port ∧ '[' ∉ port ∧ ']' ∉ port := by
  unfold splitHostPort at h
  split at h
  · cases h
  next i hi =>
    split at h
    · split at h
      · cases h
      next e he =>
        split at h
        · cases h
        · split at h
          case isTrue h2 =>
            split at h
            · cases h
            next h3 =>
              split at h
              · cases h
              next h4 =>
                injection h with h'
                rw [Prod.mk.injEq] at h'
                obtain ⟨-, rfl⟩ := h'
                refine ⟨lastIdx_drop s ':' i hi, ?_, ?_⟩
                · intro hmem
                  apply h3
                  apply List.mem_of_mem_drop (n := i)
                  rwa [List.drop_drop, Nat.add_comm]
                · intro hmem
                  apply h4
                  subst h2
                  apply List.mem_of_mem_drop (n := 1)
                  rwa [List.drop_drop]
          case isFalse h2 =>
            split at h
            · cases h
            · cases h
    · split at h
      · cases h
      next h1 =>
        split at h
        · cases h
        next h2 =>
          split at h
          · cases h
          next h3 =>
            injection h with h'
            rw [Prod.mk.injEq] at h'
            obtain ⟨-, rfl⟩ := h'
            exact ⟨lastIdx_drop s ':' i hi,
              fun hmem => h2 (List.mem_of_mem_drop hmem),
              fun hmem => h3 (List.mem_of_mem_drop hmem)⟩

/-- Round trip: splitting `host:port` built by appending a colon-free,
bracket-free, non-bracket-initial host to a clean port recovers exactly
that host and that port. -/
theorem splitHostPort_join {ho p : List Char} {a : Char}
    (hhead : ho.head? = some a) (hA : a ≠ '[')
    (hc : ':' ∉ ho) (hb1 : '[' ∉ ho) (hb2 : ']' ∉ ho)
    (pc : ':' ∉ p) (pb1 : '[' ∉ p) (pb2 : ']' ∉ p) :
    splitHostPort (ho ++ ':' :: p) = .ok (ho, p) := by
  have hlast : lastIdx (ho ++ ':' :: p) ':' = some ho.length :=
    lastIdx_append_cons ':' pc ho
  have hhead2 : ¬((ho ++ ':' :: p).head? = some '[') := by
    rw [List.head?_append, hhead]
    intro hx
    injection hx with hx'
    exact hA hx'
  have htake : (ho ++ ':' :: p).take ho.length = ho := List.take_left ho (':' :: p)
  have hdrop : (ho ++ ':' :: p).drop (ho.length + 1) = p := by
    have h1 := @List.drop_append _ ho (':' :: p) 1
    rw [List.drop_succ_cons, List.drop_zero] at h1
    exact h1
  have hlb : '[' ∉ ho ++ ':' :: p := by
    rw [List.mem_append, List.mem_cons]
    push_neg
    exact ⟨hb1, by decide, pb1⟩
  have hrb : ']' ∉ ho ++ ':' :: p := by
    rw [List.mem_append, List.mem_cons]
    push_neg
    exact ⟨hb2, by decide, pb2⟩
  unfold splitHostPort
  split
  next hnone => rw [hlast] at hnone; cases hnone
  next i hi =>
    rw [hlast] at hi
    injection hi with hi'
    subst hi'
    rw [if_neg hhead2, htake, if_neg hc, if_neg hlb, if_neg hrb, hdrop]

/-! ### Helper lemmas about the channel, the worker loop, and the launch loop -/

/-- Channel conservation: a realisable history ends with `pending = initial
pending + sends − receives`; in particular receives never outnumber what was
sent. -/
theorem chanRun_balance : ∀ (tr : List ChanEvent) (p q : Nat),
    chanRun p tr = some q → p + sendCount tr = q + recvCount tr
  | [], p, q => by
    intro h
    rw [chanRun] at h
    cases h
    simp [sendCount, recvCount]
  | .send :: tr, p, q => by
    intro h
    rw [chanRun] at h
    have ih := chanRun_balance tr (p + 1) q h
    simp only [sendCount, recvCount, List.countP_cons, isSendEv, isRecvEv,
      if_true, Bool.false_eq_true, if_false] at ih ⊢
    omega
  | .recv r :: tr, p, q => by
    cases p with
    | zero => intro h; rw [chanRun] at h; cases h
    | succ p' =>
      intro h
      rw [chanRun] at h
      have ih := chanRun_balance tr p' q h
      simp only [sendCount, recvCount, List.countP_cons, isSendEv, isRecvEv,
        if_true, Bool.false_eq_true, if_false] at ih ⊢
      omega

/-- On a channel that starts empty, a realisable history never receives
more values than were sent. -/
theorem valid_recvCount_le (tr : List ChanEvent) (h : validTrace tr = true) :
    recvCount tr ≤ sendCount tr := by
  unfold validTrace at h
  rcases hq : chanRun 0 tr with _ | q
  · rw [hq] at h
    cases h
  · have := chanRun_balance tr 0 q hq
    omega

/-- Two distinct members both satisfying `p` force a `countP` of at least 2. -/
theorem countP_two_le {α : Type} (p : α → Bool) (a b : α) (hab : a ≠ b)
    (hpa : p a = true) (hpb : p b = true) :
    ∀ (l : List α), a ∈ l → b ∈ l → 2 ≤ l.countP p
  | [], ha, _ => absurd ha (List.not_mem_nil a)
  | c :: l, ha, hb => by
    rcases List.mem_cons.mp ha with rfl | ha'
    · have hb' : b ∈ l := by
        rcases List.mem_cons.mp hb with rfl | hx
        · exact absurd rfl hab
        · exact hx
      have h1 : 0 < l.countP p := List.countP_pos_iff.mpr ⟨b, hb', hpb⟩
      rw [List.countP_cons_of_pos p l hpa]
      omega
    · rcases List.mem_cons.mp hb with rfl | hb'
      · have h1 : 0 < l.countP p := List.countP_pos_iff.mpr ⟨a, ha', hpa⟩
        rw [List.countP_cons_of_pos p l hpb]
        omega
      · have ih := countP_two_le p a b hab hpa hpb l ha' hb'
        rw [List.countP_cons]
        omega

/-- A worker whose select history is ticks followed by a successful stop
receive probes once per tick, then logs the stopping message and performs
nothing further. -/
theorem workerLoop_stop : ∀ (pre post : List SelectEvent),
    (∀ e ∈ pre, e = SelectEvent.tick) →
    workerLoop (pre ++ SelectEvent.stopRecv :: post) =
      pre.map (fun _ => WorkerAction.probe) ++ [WorkerAction.stopLog]
  | [], post, _ => by simp [workerLoop]
  | e :: pre, post, h => by
    have he : e = SelectEvent.tick := h e (List.mem_cons_self e pre)
    subst he
    simp only [List.cons_append, workerLoop, List.map_cons, List.append_eq]
    rw [workerLoop_stop pre post (fun x hx => h x (List.mem_cons_of_mem _ hx))]

/-- Clock value when the launch loop exits: one `workerOffset` sleep per
iteration. -/
theorem launchFrom_snd : ∀ (k c i : Nat),
    (launchFrom c i k).2 = c + k * workerOffsetNs
  | 0, c, i => by simp [launchFrom]
  | k + 1, c, i => by
    simp only [launchFrom]
    rw [launchFrom_snd k (c + workerOffsetNs) (i + 1)]
    ring

theorem launchFrom_length : ∀ (k c i : Nat), (launchFrom c i k).1.length = k
  | 0, _, _ => rfl
  | k + 1, c, i => by
    simp only [launchFrom, List.length_cons]
    rw [launchFrom_length k (c + workerOffsetNs) (i + 1)]

/-- The worker identities produced by the launch loop are the consecutive
integers starting at `i + 1`. -/
theorem launchFrom_map_fst : ∀ (k c i : Nat),
    (launchFrom c i k).1.map Prod.fst = List.range' (i + 1) k
  | 0, c, i => by simp [launchFrom]
  | k + 1, c, i => by
    simp only [launchFrom, List.map_cons]
    rw [launchFrom_map_fst k (c + workerOffsetNs) (i + 1), List.range'_succ]

/-- The `j`-th spawn of the launch loop is worker `i + 1 + j`, started
`j + 1` stagger offsets after the clock value at loop entry. -/
theorem launchFrom_getElem : ∀ (k c i j : Nat), j < k →
    (launchFrom c i k).1[j]? = some (i + 1 + j, c + (j + 1) * workerOffsetNs)
  | 0, _, _, j => fun h => absurd h (Nat.not_lt_zero j)
  | k + 1, c, i, 0 => by
    intro _
    simp [launchFrom]
  | k + 1, c, i, j + 1 => by
    intro h
    simp only [launchFrom]
    rw [List.getElem?_cons_succ,
      launchFrom_getElem k (c + workerOffsetNs) (i + 1) j (by omega)]
    have h1 : i + 1 + 1 + j = i + 1 + (j + 1) := by omega
    have h2 : c + workerOffsetNs + (j + 1) * workerOffsetNs
        = c + (j + 1 + 1) * workerOffsetNs := by ring
    rw [h1, h2]

/-! ## Claim theorems -/

/-- C1: for every dial performed by a client built by `createHTTPClient`
with the (non-empty) host override configured, when the original dial
address splits as `host:port` the address actually dialed is the override
host joined with that original port — and splitting the dialed address
back yields exactly the override host and the unchanged port, so only the
host component is substituted; when the split fails, the dial returns that
same error and no connection. -/
theorem c1_dial_override (addr : List Char) :
    (∀ host port, splitHostPort addr = .ok (host, port) →
      dialRewrite hostOverrideChars addr = .ok (hostOverrideChars ++ ':' :: port) ∧
      splitHostPort (hostOverrideChars ++ ':' :: port) = .ok (hostOverrideChars, port)) ∧
    (∀ e, splitHostPort addr = .error e →
      dialRewrite hostOverrideChars addr = .error e) := by
  have hne : ¬(hostOverrideChars = []) := by decide
  constructor
  · intro host port hok
    obtain ⟨pc, pb1, pb2⟩ := splitHostPort_port_clean hok
    have hjoin : joinHostPort hostOverrideChars port = hostOverrideChars ++ ':' :: port := by
      unfold joinHostPort
      rw [if_neg (by decide : ¬(':' ∈ hostOverrideChars))]
    constructor
    · unfold dialRewrite
      rw [if_neg hne, hok]
      show Except.ok (joinHostPort hostOverrideChars port) = _
      rw [hjoin]
    · exact splitHostPort_join (a := 'a') (by decide) (by decide) (by decide)
        (by decide) (by decide) pc pb1 pb2
  · intro e herr
    unfold dialRewrite
    rw [if_neg hne, herr]

/-- Witness for C1 at the dial address the transport passes for the
program's target URL (`https` port 443). -/
theorem c1_dial_override_witness :
    dialRewrite hostOverrideChars ("aga-degradation.pacnw.xyz:443".toList) =
      .ok (hostOverrideChars ++ ':' :: "443".toList) ∧
    splitHostPort (hostOverrideChars ++ ':' :: "443".toList) =
      .ok (hostOverrideChars, "443".toList) :=
  (c1_dial_override "aga-degradation.pacnw.xyz:443".toList).1
    "aga-degradation.pacnw.xyz".toList "443".toList (by rfl)

/-- C4: each call of the wrapped connection's `Close` emits exactly the one
log record naming the remote address and the owning worker, performs the
underlying connection's close behavior, and returns the underlying close's
error value unchanged. -/
theorem c4_connWrapper_close (w : ConnWrapper) :
    w.Close.logs = ["\n" ++ w.pfx ++ " 🔌 CONNECTION CLOSED to " ++ w.addr] ∧
    w.Close.conn = (w.conn.close).1 ∧
    w.Close.conn.closed = true ∧
    w.Close.err = (w.conn.close).2 ∧
    w.Close.err = w.conn.closeErr :=
  ⟨rfl, rfl, rfl, rfl, rfl⟩

/-- C2 as the spec states it: for every successful probe the end time used
in the outcome line lies at or after the instant the body was fully
drained, and the printed duration is the rounded span from start through
complete body consumption. -/
def c2Claim : Prop :=
  ∀ (t0 hd dd : Nat) (r : HTTPResponse),
    (makeRequest t0 (GetResult.success r hd dd)).drainedNs ≤
      (makeRequest t0 (GetResult.success r hd dd)).endNs ∧
    (makeRequest t0 (GetResult.success r hd dd)).durationNs? =
      some (roundNs ((makeRequest t0 (GetResult.success r hd dd)).drainedNs -
        (makeRequest t0 (GetResult.success r hd dd)).startNs))

/-- Response used in the C2 counterexample: status 200, no `x-vercel-id`
header, three body bytes. -/
def c2resp : HTTPResponse :=
  { statusCode := 200, headers := [], body := [1, 2, 3] }

/-- C2 counterexample: a probe whose headers arrive after 5 ms but whose
body takes a further second to drain has `endNs` (5 ms) strictly before
`drainedNs` (1005 ms), and reports a 5 ms duration, not 1005 ms: the end
time is recorded before the drain, refuting the claim. -/
theorem c2_end_before_drain : ¬ c2Claim := by
  intro h
  have hx := (h 0 5000000 1000000000 c2resp).1
  exact absurd hx (by decide)

/-- C2 amended: `makeRequest` records the start time before issuing the
GET, records the end time used in the outcome line immediately when
`client.Get` returns — i.e. after response headers, before the body is
drained (`drainedNs` lies `dd` later) — and the reported duration is the
header-receipt span `hd` rounded to a millisecond, not the span through
body consumption. -/
theorem c2_timing_amended (t0 hd dd : Nat) (r : HTTPResponse) :
    (makeRequest t0 (GetResult.success r hd dd)).startNs = t0 ∧
    (makeRequest t0 (GetResult.success r hd dd)).endNs = t0 + hd ∧
    (makeRequest t0 (GetResult.success r hd dd)).drainedNs = t0 + hd + dd ∧
    (makeRequest t0 (GetResult.success r hd dd)).durationNs? = some (roundNs hd) := by
  refine ⟨rfl, rfl, rfl, ?_⟩
  simp [makeRequest, ProbeOutcome.durationNs?, Nat.add_sub_cancel_left]

/-- C5: for every probe whose GET returns a response, the byte count in
the outcome line equals the full length of the response body, and the
probe is reported as a success line. -/
theorem c5_byte_count (t0 hd dd : Nat) (r : HTTPResponse) :
    (makeRequest t0 (GetResult.success r hd dd)).bytesRead? = some r.body.length ∧
    (makeRequest t0 (GetResult.success r hd dd)).isError = false :=
  ⟨rfl, rfl⟩

/-- C8: for every successful probe the `x-vercel-id` header value is
extracted into the outcome line; when the header is absent the literal
string "not found" is substituted, and the probe is still reported as a
success (absence is not an error). -/
theorem c8_vercel_header (t0 hd dd : Nat) (r : HTTPResponse) :
    (headerGet r.headers "x-vercel-id" = "" →
      (makeRequest t0 (GetResult.success r hd dd)).headerVal? = some "not found") ∧
    (∀ v, headerGet r.headers "x-vercel-id" = v → ¬(v = "") →
      (makeRequest t0 (GetResult.success r hd dd)).headerVal? = some v) ∧
    (makeRequest t0 (GetResult.success r hd dd)).isError = false := by
  refine ⟨?_, ?_, rfl⟩
  · intro h
    simp [makeRequest, ProbeOutcome.headerVal?, h]
  · intro v hv hne
    simp [makeRequest, ProbeOutcome.headerVal?, hv, hne]

/-- Response with the designated header absent. -/
def c8respAbsent : HTTPResponse :=
  { statusCode := 200, headers := [("content-type", "text/plain")], body := [] }

/-- Response carrying the designated header. -/
def c8respPresent : HTTPResponse :=
  { statusCode := 200, headers := [("X-Vercel-Id", "icn1::abcd-1234")], body := [] }

/-- Witness for C8: a response without the header reports "not found", a
response carrying it reports its value. -/
theorem c8_vercel_header_witness :
    (makeRequest 0 (GetResult.success c8respAbsent 1 1)).headerVal? = some "not found" ∧
    (makeRequest 0 (GetResult.success c8respPresent 1 1)).headerVal? = some "icn1::abcd-1234" :=
  ⟨(c8_vercel_header 0 1 1 c8respAbsent).1 (by rfl),
   (c8_vercel_header 0 1 1 c8respPresent).2.1 "icn1::abcd-1234" (by rfl) (by decide)⟩

/-- C9: the client `createHTTPClient` builds leaves `http.Client.Timeout`
at its zero value (no overall per-request bound) even though the 10-second
`requestTimeout` constant is declared; the only connection-phase bound is
the dialer's 10-second timeout, and a success whose headers take an
arbitrarily long `d` still completes normally at `d` — nothing caps it. -/
theorem c9_no_request_timeout (p : String) (r : HTTPResponse) :
    (createHTTPClient p).timeoutNs = 0 ∧
    (createHTTPClient p).transport.dialTimeoutNs = 10000000000 ∧
    requestTimeoutNs = 10000000000 ∧
    ∀ d : Nat, (makeRequest 0 (GetResult.success r d 0)).endNs = d ∧
      (makeRequest 0 (GetResult.success r d 0)).isError = false := by
  refine ⟨rfl, rfl, rfl, fun d => ⟨?_, rfl⟩⟩
  simp [makeRequest, ProbeOutcome.endNs]

/-- C3 counterexample: the stop indicator is `make(chan os.Signal, 1)`,
never closed; a delivered signal is one value on the channel, and `main`
and every worker compete to receive it.  No realisable channel history
with a single delivered signal lets two workers both receive it — the
signal is not broadcast to all workers. -/
theorem c3_stop_not_broadcast : ¬ broadcastClaim := by
  rintro ⟨tr, hval, hsend, h1, h2⟩
  have hle := valid_recvCount_le tr hval
  have h2le : 2 ≤ recvCount tr :=
    countP_two_le isRecvEv (ChanEvent.recv 1) (ChanEvent.recv 2)
      (by decide) (by decide) (by decide) tr h1 h2
  omega

/-- C3 amended: each delivered stop signal is observed by at most one
receiver (receives on the channel never outnumber the signals sent), so at
most one of the supervisor and the workers sees it; a worker whose select
does win the receive between probes logs the stopping message and
terminates without emitting any further probe. -/
theorem c3_stop_amended :
    (∀ tr : List ChanEvent, validTrace tr = true → recvCount tr ≤ sendCount tr) ∧
    (∀ pre post : List SelectEvent, (∀ e ∈ pre, e = SelectEvent.tick) →
      workerLoop (pre ++ SelectEvent.stopRecv :: post) =
        pre.map (fun _ => WorkerAction.probe) ++ [WorkerAction.stopLog]) :=
  ⟨valid_recvCount_le, workerLoop_stop⟩

/-- Witness for C3 amended: one delivered signal received once, and a
worker that ticks once then receives the stop probes once and stops. -/
theorem c3_stop_amended_witness :
    recvCount [ChanEvent.send, ChanEvent.recv 1] ≤
      sendCount [ChanEvent.send, ChanEvent.recv 1] ∧
    workerLoop [SelectEvent.tick, SelectEvent.stopRecv] =
      [WorkerAction.probe, WorkerAction.stopLog] :=
  ⟨c3_stop_amended.1 [ChanEvent.send, ChanEvent.recv 1] (by decide),
   c3_stop_amended.2 [SelectEvent.tick] [] (by decide)⟩

/-- C6: for every positive worker count `n`, `main` starts exactly `n`
workers whose identities are the ascending sequence `1, 2, …, n`, pairwise
distinct. -/
theorem c6_worker_ids (n : Nat) (_h : 0 < n) :
    (workerLaunches n).length = n ∧
    (workerLaunches n).map Prod.fst = List.range' 1 n ∧
    ((workerLaunches n).map Prod.fst).Nodup ∧
    List.Pairwise (· < ·) ((workerLaunches n).map Prod.fst) := by
  have hmap := launchFrom_map_fst n 0 0
  simp only [Nat.zero_add] at hmap
  have hmap' : (workerLaunches n).map Prod.fst = List.range' 1 n := hmap
  refine ⟨launchFrom_length n 0 0, hmap', ?_, ?_⟩
  · rw [hmap']
    exact List.nodup_range' _ _
  · rw [hmap']
    exact List.pairwise_lt_range' _ _

/-- Witness for C6 at `n = 3`. -/
theorem c6_worker_ids_witness :
    (workerLaunches 3).length = 3 ∧
    (workerLaunches 3).map Prod.fst = List.range' 1 3 ∧
    ((workerLaunches 3).map Prod.fst).Nodup ∧
    List.Pairwise (· < ·) ((workerLaunches 3).map Prod.fst) :=
  c6_worker_ids 3 (by decide)

/-- C7: an invalid worker-count argument (`Atoi` fails, or parses to a
non-positive value) is recovered locally: the message flag is set, the
count falls back to 1, and the launch schedule and supervisor wait point
are exactly those of an invocation with `N = 1`. -/
theorem c7_invalid_arg (a : List Char)
    (h : atoi a = none ∨ ∃ n : Int, atoi a = some n ∧ n ≤ 0) :
    parseWorkerCount (some a) = (1, true) ∧
    workerLaunches (parseWorkerCount (some a)).1 = workerLaunches 1 ∧
    supervisorWaitNs (parseWorkerCount (some a)).1 = supervisorWaitNs 1 := by
  have hp : parseWorkerCount (some a) = (1, true) := by
    show (match atoi a with
      | some n => if 0 < n then ((n.toNat, false) : Nat × Bool) else (1, true)
      | none => (1, true)) = (1, true)
    rcases h with h | ⟨n, hn, hle⟩
    · rw [h]
    · rw [hn]
      show (if 0 < n then ((n.toNat, false) : Nat × Bool) else (1, true)) = (1, true)
      rw [if_neg (by omega)]
  exact ⟨hp, by rw [hp], by rw [hp]⟩

/-- Witness for C7 at the argument "0" (zero worker count). -/
theorem c7_invalid_arg_witness :
    parseWorkerCount (some "0".toList) = (1, true) ∧
    workerLaunches (parseWorkerCount (some "0".toList)).1 = workerLaunches 1 ∧
    supervisorWaitNs (parseWorkerCount (some "0".toList)).1 = supervisorWaitNs 1 :=
  c7_invalid_arg "0".toList (Or.inr ⟨0, rfl, by decide⟩)

/-- C10: `main` sleeps one `workerOffset` before every spawn, the first
included: worker `k+1` (0-indexed `k`) starts at `(k+1)·workerOffset`, so
the first worker starts one non-zero offset after process start,
consecutive workers start one offset apart, and the supervisor reaches its
wait on the stop channel only after all `n` stagger delays. -/
theorem c10_stagger (n k : Nat) (hk : k < n) :
    (workerLaunches n)[k]? = some (k + 1, (k + 1) * workerOffsetNs) ∧
    (workerLaunches n)[0]? = some (1, workerOffsetNs) ∧
    supervisorWaitNs n = n * workerOffsetNs ∧
    0 < workerOffsetNs := by
  have h1 := launchFrom_getElem n 0 0 k hk
  have h0 := launchFrom_getElem n 0 0 0 (by omega)
  simp only [Nat.zero_add] at h1 h0
  rw [Nat.add_comm 1 k] at h1
  simp only [Nat.add_zero, Nat.one_mul] at h0
  have hs := launchFrom_snd n 0 0
  simp only [Nat.zero_add] at hs
  exact ⟨h1, h0, hs, by decide⟩

/-- Witness for C10 at `n = 2`, `k = 1`. -/
theorem c10_stagger_witness :
    (workerLaunches 2)[1]? = some (1 + 1, (1 + 1) * workerOffsetNs) ∧
    (workerLaunches 2)[0]? = some (1, workerOffsetNs) ∧
    supervisorWaitNs 2 = 2 * workerOffsetNs ∧
    0 < workerOffsetNs :=
  c10_stagger 2 1 (by decide)
